import Mathlib

/-!
Verification of the Mindi Kot rules engine.

Shallow embedding of the TypeScript sources:
  * `src/logic/deck.ts`  — card model, seeded shuffle, trick-winner evaluation
  * `src/logic/mindi.ts` — deal planning, reveal rules, trick resolution
  * `app/game.tsx`       — the play/reveal transaction bodies

Modelling conventions:
  * A card string `"RS"` (rank char + suit char) is modelled as a structure
    with a `rank` and a `suit` field; `cardRank` / `cardSuit` are the
    corresponding projections of `c.slice(0, -1)` / `c.slice(-1)`.
  * JavaScript `Array.prototype.sort` (stable since ES2019) with a comparator
    `cmp` is modelled as a stable insertion sort `sortWith le` where
    `le a b` means `cmp a b ≤ 0`.
  * `seedrandom(seed)` is an external deterministic PRNG: the stream of draws
    it produces is a pure function of the seed.  We model the seeded stream
    itself as a parameter `rand : Nat → Nat`; the Fisher-Yates draw
    `Math.floor(rng() * (i + 1))` (always in `[0, i]`) is modelled as
    `rand i % (i + 1)`.  "Same seed" means "same `rand`".
  * The unseeded `Math.random()` draw inside `planDeal` is modelled as an
    explicit argument `randIdx`; `Math.floor(Math.random() * n)` is always
    `< n` when `n > 0`, so theorems assume `randIdx` in range.
  * Code that would dereference `undefined` (crash) at runtime is modelled
    with `Option` / `Except`: a `none` / `.error` result corresponds to a
    thrown error or runtime type error, after which the Firestore
    transaction writes nothing.
-/

/-- Suits, `deck.ts` line 6. -/
inductive Suit where
  | S | H | D | C
deriving DecidableEq, Repr

/-- Ranks (no 2s), `deck.ts` line 7. -/
inductive Rank where
  | A | K | Q | J | T | N9 | N8 | N7 | N6 | N5 | N4 | N3
deriving DecidableEq, Repr

/-- A card `"${Rank}${Suit}"`, `deck.ts` line 8, modelled as the pair of its
rank and suit characters. -/
structure Card where
  rank : Rank
  suit : Suit
deriving DecidableEq, Repr

/-- `RANKS`, `deck.ts` line 10. -/
def RANKS : List Rank :=
  [Rank.A, Rank.K, Rank.Q, Rank.J, Rank.T, Rank.N9, Rank.N8, Rank.N7,
   Rank.N6, Rank.N5, Rank.N4, Rank.N3]

/-- `SUITS`, `deck.ts` line 11. -/
def SUITS : List Suit := [Suit.S, Suit.H, Suit.D, Suit.C]

/-- `buildSingleDeckNoTwos`, `deck.ts` lines 14-18: suits outer loop, ranks
inner loop. -/
def buildSingleDeckNoTwos : List Card :=
  SUITS.flatMap (fun s => RANKS.map (fun r => ⟨r, s⟩))

/-- `buildDecksNoTwos`, `deck.ts` lines 21-24.  The source types `deckCount`
as `1 | 2`; the `=== 1` test is kept verbatim. -/
def buildDecksNoTwos (deckCount : Nat) : List Card :=
  if deckCount = 1 then buildSingleDeckNoTwos
  else buildSingleDeckNoTwos ++ buildSingleDeckNoTwos

/-- Swap of two positions of a list, modelling
`[a[i], a[j]] = [a[j], a[i]]` (`deck.ts` line 32).  Both indices are always
in range at the call site. -/
def listSwap (l : List α) (i j : Nat) : List α :=
  match l[i]?, l[j]? with
  | some x, some y => (l.set i y).set j x
  | _, _ => l

/-- The Fisher-Yates loop of `shuffle`, `deck.ts` lines 30-33: the argument
`i` is the loop counter, counting down to (and not executing at) `0`;
`rand i % (i + 1)` models `Math.floor(rng() * (i + 1))`. -/
def shuffleGo (rand : Nat → Nat) : Nat → List α → List α
  | 0, a => a
  | i + 1, a => shuffleGo rand i (listSwap a (i + 1) (rand (i + 1) % (i + 2)))

/-- `shuffle`, `deck.ts` lines 27-35.  The input is copied (`arr.slice()`)
and never mutated; the embedding is pure, so the result is simply a new
list.  `rand` is the seeded `seedrandom(seed)` stream. -/
def shuffle (arr : List α) (rand : Nat → Nat) : List α :=
  shuffleGo rand (arr.length - 1) arr

/-- `cardsPerPlayer`, `deck.ts` lines 38-46. -/
def cardsPerPlayer (players : Nat) (deckCount : Nat) : Nat :=
  if players = 6 ∧ deckCount = 1 then 8
  else if players = 8 ∧ deckCount = 1 then 6
  else if players = 8 ∧ deckCount = 2 then 12
  else if players = 4 ∧ deckCount = 1 then 12
  else (buildDecksNoTwos deckCount).length / players

/-- `RANK_POWER`, `deck.ts` lines 60-62. -/
def RANK_POWER : Rank → Nat
  | Rank.A => 12 | Rank.K => 11 | Rank.Q => 10 | Rank.J => 9
  | Rank.T => 8 | Rank.N9 => 7 | Rank.N8 => 6 | Rank.N7 => 5
  | Rank.N6 => 4 | Rank.N5 => 3 | Rank.N4 => 2 | Rank.N3 => 1

/-- `Play`, `deck.ts` line 64. -/
structure Play where
  seat : Nat
  card : Card
  order : Nat
deriving DecidableEq, Repr

/-- `cardSuit`, `deck.ts` line 66 (`c.slice(-1)`). -/
def cardSuit (c : Card) : Suit := c.suit

/-- `cardRank`, `deck.ts` line 67 (`c.slice(0, c.length - 1)`). -/
def cardRank (c : Card) : Rank := c.rank

/-- Stable insertion of `x` into `l`: `x` goes before the first element `y`
with `le x y`.  Together with `sortWith` this models ES2019's stable
`Array.prototype.sort` under the total preorder `le a b ↔ cmp a b ≤ 0`. -/
def insertSorted (le : α → α → Bool) (x : α) : List α → List α
  | [] => [x]
  | y :: t => if le x y then x :: y :: t else y :: insertSorted le x t

/-- Stable sort by the boolean preorder `le` (model of `contenders.sort(cmp)`
and friends). -/
def sortWith (le : α → α → Bool) : List α → List α
  | [] => []
  | x :: t => insertSorted le x (sortWith le t)

/-- The comparator of `evaluateTrickWinner`, `deck.ts` lines 87-94, as the
predicate `cmp a b ≤ 0`: rank strength ascending, then (for same-suit
contenders) order ascending; distinct suits of equal rank compare equal
(`return 0`). -/
def trickCompareLe (a b : Play) : Bool :=
  if RANK_POWER (cardRank a.card) ≠ RANK_POWER (cardRank b.card) then
    decide (RANK_POWER (cardRank a.card) < RANK_POWER (cardRank b.card))
  else if cardSuit a.card ≠ cardSuit b.card then true
  else decide (a.order ≤ b.order)

/-- The contender set of `evaluateTrickWinner`, `deck.ts` lines 74-84:
trump plays if a trump suit is supplied and present, otherwise the plays of
the led suit. -/
def contendersOf (plays : List Play) (ledSuit : Suit) (trumpSuit : Option Suit) : List Play :=
  match trumpSuit with
  | some t =>
    if plays.any (fun p => cardSuit p.card == t) then
      plays.filter (fun p => cardSuit p.card == t)
    else
      plays.filter (fun p => cardSuit p.card == ledSuit)
  | none => plays.filter (fun p => cardSuit p.card == ledSuit)

/-- `evaluateTrickWinner`, `deck.ts` lines 73-97: sort the contenders and
take the last (`contenders[contenders.length - 1]`).  An empty contender set
indexes out of bounds (`undefined`), modelled as `none`. -/
def evaluateTrickWinner (plays : List Play) (ledSuit : Suit)
    (trumpSuit : Option Suit) : Option Play :=
  (sortWith trickCompareLe (contendersOf plays ledSuit trumpSuit)).getLast?

/-- `legalPlays`, `deck.ts` lines 100-104. -/
def legalPlays (hand : List Card) (ledSuit : Option Suit) : List Card :=
  match ledSuit with
  | none => hand
  | some led =>
    let ofLed := hand.filter (fun c => cardSuit c == led)
    if ofLed.length ≠ 0 then ofLed else hand

-- Sanity checks against the worked examples in spec §8 (removed later if
-- desired; they are plain examples, not claim theorems).
example :
    evaluateTrickWinner
      [⟨0, ⟨Rank.T, Suit.S⟩, 0⟩, ⟨1, ⟨Rank.K, Suit.S⟩, 1⟩,
       ⟨2, ⟨Rank.A, Suit.H⟩, 2⟩, ⟨3, ⟨Rank.N9, Suit.S⟩, 3⟩]
      Suit.S none = some ⟨1, ⟨Rank.K, Suit.S⟩, 1⟩ := by decide

example :
    evaluateTrickWinner
      [⟨0, ⟨Rank.T, Suit.S⟩, 0⟩, ⟨1, ⟨Rank.K, Suit.S⟩, 1⟩,
       ⟨2, ⟨Rank.A, Suit.H⟩, 2⟩, ⟨3, ⟨Rank.N9, Suit.S⟩, 3⟩]
      Suit.S (some Suit.H) = some ⟨2, ⟨Rank.A, Suit.H⟩, 2⟩ := by decide

example :
    evaluateTrickWinner
      [⟨0, ⟨Rank.A, Suit.S⟩, 0⟩, ⟨2, ⟨Rank.A, Suit.S⟩, 2⟩]
      Suit.S none = some ⟨2, ⟨Rank.A, Suit.S⟩, 2⟩ := by decide

/-! ### `src/logic/mindi.ts` -/

deriving instance DecidableEq for Except

/-- A per-seat hand `{ visible: Card[]; hidden?: Card | null }`
(`mindi.ts` line 19, `MyHandDoc` in `app/game.tsx`). -/
structure Hand where
  visible : List Card
  hidden : Option Card
deriving DecidableEq, Repr

/-- `DealPlan`, `mindi.ts` lines 13-21.  The `seed` field (returned verbatim
for audit) is omitted: the seeded PRNG is modelled by the `rand` stream
argument of `planDeal`, which, being a function, cannot be stored in a
decidable-equality structure. -/
structure DealPlan where
  deckCount : Nat
  players : Nat
  hiderSeat : Nat
  leaderSeat : Nat
  trumpSuit : Suit
  hands : List Hand
deriving DecidableEq, Repr

/-- `SUIT_ORDER`, `mindi.ts` line 63. -/
def SUIT_ORDER : Suit → Nat
  | Suit.S => 0 | Suit.H => 1 | Suit.D => 2 | Suit.C => 3

/-- The comparator `sortBySuitRank`, `mindi.ts` lines 57-62, as the predicate
`cmp a b ≤ 0`: suit-major by `SUIT_ORDER`, then by position in `RANKS`
(Ace first) within a suit. -/
def sortBySuitRank (a b : Card) : Bool :=
  if cardSuit a ≠ cardSuit b then
    decide (SUIT_ORDER (cardSuit a) < SUIT_ORDER (cardSuit b))
  else decide (RANKS.indexOf (cardRank a) ≤ RANKS.indexOf (cardRank b))

/-- Element update at an index (`raw[seat].push(...)` rewrites one slot of
the hands array); out-of-range leaves the list unchanged. -/
def modifyAt (i : Nat) (f : α → α) : List α → List α
  | [] => []
  | a :: t =>
    match i with
    | 0 => f a :: t
    | i + 1 => a :: modifyAt i f t

/-- The round-robin dealing loop shared by `dealToPlayers`
(`deck.ts` lines 49-57) and `planDeal` (`mindi.ts` lines 38-42):
`hands[p].push(deck[i]); p = (p + 1) % players`. -/
def dealToPlayersGo (players : Nat) : List Card → Nat → List (List Card) → List (List Card)
  | [], _, raw => raw
  | c :: rest, seat, raw =>
    dealToPlayersGo players rest ((seat + 1) % players) (modifyAt seat (fun h => h ++ [c]) raw)

/-- `dealToPlayers`, `deck.ts` lines 49-57: the loop reads
`deck[0] … deck[players*each - 1]` in order, i.e. `deck.take (players*each)`
(the call sites guarantee `players * each ≤ deck.length`). -/
def dealToPlayers (deck : List Card) (players startSeat each : Nat) : List (List Card) :=
  dealToPlayersGo players (deck.take (players * each)) startSeat (List.replicate players [])

/-- `planDeal`, `mindi.ts` lines 33-55.  The inline dealing loop is the same
round-robin as `dealToPlayers`, starting at `leaderSeat`.  `rand` is the
seeded shuffle stream; `randIdx` models the *unseeded*
`Math.floor(Math.random() * hiderHand.length)` draw of line 45 (always
`< hiderHand.length` when that hand is non-empty).  A `none` result models
the runtime crash on an out-of-range `hiderSeat` or an empty hider hand
(`cardSuit(undefined)` throws). -/
def planDeal (players deckCount hiderSeat leaderSeat : Nat)
    (rand : Nat → Nat) (randIdx : Nat) : Option DealPlan :=
  ((dealToPlayers (shuffle (buildDecksNoTwos deckCount) rand) players leaderSeat
      (cardsPerPlayer players deckCount))[hiderSeat]?).bind
    (fun hiderHand => (hiderHand[randIdx]?).map
      (fun hidden =>
        { deckCount := deckCount, players := players, hiderSeat := hiderSeat,
          leaderSeat := leaderSeat, trumpSuit := cardSuit hidden,
          hands := ((dealToPlayers (shuffle (buildDecksNoTwos deckCount) rand)
              players leaderSeat (cardsPerPlayer players deckCount)).set hiderSeat
              (hiderHand.eraseIdx randIdx)).mapIdx
            (fun s arr =>
              { visible := sortWith sortBySuitRank arr,
                hidden := if s = hiderSeat then some hidden else none }) }))

/-- `canRevealTrump`, `mindi.ts` lines 85-92.  Note: the `hidden` argument is
accepted but never consulted by the source. -/
def canRevealTrump (handVisible : List Card) (hidden : Option Card)
    (ledSuit : Option Suit) (trumpRevealed : Bool) : Bool :=
  if trumpRevealed then false
  else
    match ledSuit with
    | none => false
    | some led =>
      if handVisible.any (fun c => cardSuit c == led) then false
      else true

/-- `undefinedIfUnrevealed`, `mindi.ts` lines 102-105: despite its name and
doc comment, it returns `trumpSuit` unconditionally (it receives no reveal
state at all). -/
def undefinedIfUnrevealed (trumpSuit : Suit) (plays : List Play) : Option Suit :=
  some trumpSuit

/-- `resolveTrick`, `mindi.ts` lines 95-99.  `win.seat` on an `undefined`
winner would crash, hence `Option`.  Returns `(winnerSeat, tensTaken)`. -/
def resolveTrick (plays : List Play) (ledSuit trumpSuit : Suit) (players : Nat) :
    Option (Nat × Nat) :=
  (evaluateTrickWinner plays ledSuit (undefinedIfUnrevealed trumpSuit plays)).map
    (fun win => (win.seat, (plays.filter (fun p => cardRank p.card == Rank.T)).length))

/-- `handFinished`, `mindi.ts` lines 108-110. -/
def handFinished (hands : List Hand) : Bool :=
  hands.all (fun h => h.visible.length = 0 && h.hidden == none)

/-- `applyRevealOnHand`, `mindi.ts` lines 114-128 (exported but never called
by the app). -/
def applyRevealOnHand (h : Hand) (usingHidden : Bool) : Hand :=
  if usingHidden then { h with hidden := none }
  else
    match h.hidden with
    | some c =>
      { visible := sortWith sortBySuitRank (h.visible ++ [c]), hidden := none }
    | none => h

/-! ### `app/game.tsx` — the play and reveal transaction bodies

`RoomState` keeps exactly the fields those transactions read or write
(`mode`, `hostUid`, `handNumber` and the match/scrap scoreboards are only
touched by table initialization and end-of-hand, which no claim concerns).
Player identities (`uid` strings) are modelled as `Nat`.  A JS record
`Record<string, number>` used as a counter table is modelled as an
association list updated in place. -/

structure RoomState where
  seats : List Nat
  teamMap : List Nat
  hiderSeat : Nat
  trumpSuit : Option Suit
  trumpRevealed : Bool
  trumpRevealedBySeat : Option Nat
  currentTurnSeat : Nat
  ledSuit : Option Suit
  plays : List Play
  trickIndex : Nat
  tensByTeam : List (Nat × Nat)
deriving DecidableEq, Repr

/-- `(m[k] || 0)` on a JS record. -/
def recGet (m : List (Nat × Nat)) (k : Nat) : Nat :=
  match m.lookup k with
  | some v => v
  | none => 0

/-- `m[k] = v` on a JS record (keeps first-insertion order, appends new
keys). -/
def recSet (m : List (Nat × Nat)) (k v : Nat) : List (Nat × Nat) :=
  if m.any (fun kv => kv.1 == k) then
    m.map (fun kv => if kv.1 == k then (k, v) else kv)
  else m ++ [(k, v)]

/-- `playCard`, `app/game.tsx` lines 173-221, as a pure function of one
consistent snapshot of the room document and the acting player's hand
document.  The guard `mySeat !== state.currentTurnSeat` (a silent early
return) and the in-transaction `throw`s are all modelled as `.error`:
in every such case the transaction commits nothing and both documents are
left unchanged.  The non-null cast `room.ledSuit as Suit` on a follow-up
play with no stored led suit is modelled as an error. -/
def playCard (room : RoomState) (hand : Hand) (uid : Nat) (card : Card) :
    Except String (RoomState × Hand) :=
  match room.seats.findIdx? (fun u => u == uid) with
  | none => Except.error "not your turn"
  | some mySeat =>
  if mySeat ≠ room.currentTurnSeat then Except.error "not your turn" else
  let ledSuit? := if room.plays.length = 0 then some (cardSuit card) else room.ledSuit
  if card ∈ hand.visible then
    let vis := hand.visible.erase card
    let play : Play := { seat := mySeat, card := card, order := room.plays.length }
    let newPlays := room.plays ++ [play]
    let totalPlayers := room.seats.length
    if newPlays.length = totalPlayers then
      match ledSuit? with
      | none => Except.error "led suit missing"
      | some led =>
      match evaluateTrickWinner newPlays led
          (if room.trumpRevealed then room.trumpSuit else none) with
      | none => Except.error "no trick winner"
      | some win =>
        let tens := (newPlays.filter (fun p => cardRank p.card == Rank.T)).length
        let winnerTeam := (room.teamMap[win.seat]?).getD 0
        Except.ok
          ({ room with
              plays := [], ledSuit := none, currentTurnSeat := win.seat,
              trickIndex := room.trickIndex + 1,
              tensByTeam := recSet room.tensByTeam winnerTeam
                (recGet room.tensByTeam winnerTeam + tens) },
           { hand with visible := vis })
    else
      Except.ok
        ({ room with
            plays := newPlays, ledSuit := ledSuit?,
            currentTurnSeat := (room.currentTurnSeat + 1) % totalPlayers },
         { hand with visible := vis })
  else Except.error "Card not in your hand"

/-- The JS default string sort used by `revealTrumpAndPlay`
(`visibleTrumps.sort()` and `vis.sort()`): lexicographic on the UTF-16 code
units of `"${Rank}${Suit}"`.  Rank character codes. -/
def RANK_CHAR : Rank → Nat
  | Rank.A => 65 | Rank.K => 75 | Rank.Q => 81 | Rank.J => 74
  | Rank.T => 84 | Rank.N9 => 57 | Rank.N8 => 56 | Rank.N7 => 55
  | Rank.N6 => 54 | Rank.N5 => 53 | Rank.N4 => 52 | Rank.N3 => 51

/-- Suit character codes. -/
def SUIT_CHAR : Suit → Nat
  | Suit.S => 83 | Suit.H => 72 | Suit.D => 68 | Suit.C => 67

/-- Default lexicographic string comparison of two card strings (the rank
characters are pairwise distinct, so the first character decides unless
equal). -/
def strLe (a b : Card) : Bool :=
  if RANK_CHAR (cardRank a) ≠ RANK_CHAR (cardRank b) then
    decide (RANK_CHAR (cardRank a) < RANK_CHAR (cardRank b))
  else decide (SUIT_CHAR (cardSuit a) ≤ SUIT_CHAR (cardSuit b))

/-- `revealTrumpAndPlay`, `app/game.tsx` lines 224-301, as a pure function
of one consistent snapshot.  `visibleTrumps.sort().slice(-1)[0]` is the last
element of the default-sorted visible trumps (`getLast?`; `none` exactly
when `visibleTrumps` is empty, i.e. the source's `length > 0` test fails).
The source writes `hidden: usingHidden ? null : null` — `null` on every
successful path.  Only the acting player's own hand document is read or
written. -/
def revealTrumpAndPlay (room : RoomState) (hand : Hand) (uid : Nat)
    (useHiddenIfOnly : Bool) : Except String (RoomState × Hand) :=
  match room.ledSuit with
  | none => Except.error "no led suit"
  | some led =>
  if room.trumpRevealed then Except.error "trump already revealed" else
  if (legalPlays hand.visible (some led)).any (fun c => cardSuit c == led) then
    Except.error "must follow suit"
  else
  match room.seats.findIdx? (fun u => u == uid) with
  | none => Except.error "Not your turn"
  | some mySeat =>
  if mySeat ≠ room.currentTurnSeat then Except.error "Not your turn" else
  match room.trumpSuit with
  | none => Except.error "No trump to reveal with"
  | some trump =>
  let visibleTrumps := hand.visible.filter (fun c => cardSuit c == trump)
  let chosen : Option (Card × Bool) :=
    match (sortWith strLe visibleTrumps).getLast? with
    | some c => some (c, false)
    | none =>
      match hand.hidden with
      | some hc => if cardSuit hc == trump then some (hc, true) else none
      | none => none
  match chosen with
  | none => Except.error "No trump to reveal with"
  | some (cardToPlay, usingHidden) =>
  if usingHidden ∧ ¬ useHiddenIfOnly then
    Except.error "Only hidden trump available"
  else
    let vis :=
      if usingHidden then hand.visible
      else
        let vis0 := hand.visible.erase cardToPlay
        match hand.hidden with
        | some hc => vis0 ++ [hc]
        | none => vis0
    let play : Play := { seat := mySeat, card := cardToPlay, order := room.plays.length }
    let newPlays := room.plays ++ [play]
    let totalPlayers := room.seats.length
    let newHand : Hand := { visible := sortWith strLe vis, hidden := none }
    if newPlays.length = totalPlayers then
      match evaluateTrickWinner newPlays led room.trumpSuit with
      | none => Except.error "no trick winner"
      | some win =>
        let tens := (newPlays.filter (fun p => cardRank p.card == Rank.T)).length
        let winnerTeam := (room.teamMap[win.seat]?).getD 0
        Except.ok
          ({ room with
              plays := [], ledSuit := none,
              trumpRevealed := true, trumpRevealedBySeat := some mySeat,
              currentTurnSeat := win.seat, trickIndex := room.trickIndex + 1,
              tensByTeam := recSet room.tensByTeam winnerTeam
                (recGet room.tensByTeam winnerTeam + tens) },
           newHand)
    else
      Except.ok
        ({ room with
            plays := newPlays, ledSuit := some led,
            trumpRevealed := true, trumpRevealedBySeat := some mySeat,
            currentTurnSeat := (room.currentTurnSeat + 1) % totalPlayers },
         newHand)

/-- The reveal transaction at table level: the Firestore transaction of
`revealTrumpAndPlay` writes the room document and the acting player's hand
document `rooms/{roomId}/hands/{uid}` — and no other seat's hand. -/
def revealOnTable (room : RoomState) (hands : List Hand) (uid : Nat)
    (useHiddenIfOnly : Bool) : Except String (RoomState × List Hand) :=
  match room.seats.findIdx? (fun u => u == uid) with
  | none => Except.error "Not your turn"
  | some mySeat =>
  match hands[mySeat]? with
  | none => Except.error "no hand"
  | some h =>
    (revealTrumpAndPlay room h uid useHiddenIfOnly).map
      (fun rh => (rh.1, hands.set mySeat rh.2))

/-! ### Generic facts about the stable sort `sortWith` -/

theorem insertSorted_perm (le : α → α → Bool) (x : α) (l : List α) :
    (insertSorted le x l).Perm (x :: l) := by
  induction l with
  | nil => exact List.Perm.refl _
  | cons y t ih =>
    unfold insertSorted
    cases hxy : le x y with
    | true => simp
    | false =>
      simp only [Bool.false_eq_true, if_false]
      exact (ih.cons y).trans (List.Perm.swap x y t)

theorem sortWith_perm (le : α → α → Bool) (l : List α) :
    (sortWith le l).Perm l := by
  induction l with
  | nil => exact List.Perm.refl _
  | cons x t ih => exact (insertSorted_perm le x (sortWith le t)).trans (ih.cons x)

theorem mem_sortWith {le : α → α → Bool} {l : List α} {a : α} :
    a ∈ sortWith le l ↔ a ∈ l :=
  (sortWith_perm le l).mem_iff

theorem pairwise_insertSorted (le : α → α → Bool) (x : α) (l : List α)
    (htot : ∀ b ∈ l, le x b = true ∨ le b x = true)
    (htrans : ∀ b ∈ l, ∀ c ∈ l, le x b = true → le b c = true → le x c = true)
    (hl : List.Pairwise (fun a b => le a b = true) l) :
    List.Pairwise (fun a b => le a b = true) (insertSorted le x l) := by
  induction l with
  | nil => simp [insertSorted]
  | cons y t ih =>
    rcases hl with - | ⟨hy, ht⟩
    unfold insertSorted
    cases hxy : le x y with
    | true =>
      refine List.Pairwise.cons ?_ (List.Pairwise.cons hy ht)
      intro b hb
      rcases List.mem_cons.mp hb with rfl | hb
      · exact hxy
      · exact htrans y (List.mem_cons_self y t) b (List.mem_cons_of_mem y hb) hxy (hy b hb)
    | false =>
      simp only [Bool.false_eq_true, if_false]
      refine List.Pairwise.cons ?_ ?_
      · intro b hb
        rcases List.mem_cons.mp ((insertSorted_perm le x t).mem_iff.mp hb) with rfl | hbt
        · rcases htot y (List.mem_cons_self y t) with h | h
          · exact absurd h (by simp [hxy])
          · exact h
        · exact hy b hbt
      · exact ih (fun b hb => htot b (List.mem_cons_of_mem y hb))
          (fun b hb c hc => htrans b (List.mem_cons_of_mem y hb) c (List.mem_cons_of_mem y hc))
          ht

theorem pairwise_sortWith (le : α → α → Bool) (l : List α)
    (htot : ∀ a ∈ l, ∀ b ∈ l, le a b = true ∨ le b a = true)
    (htrans : ∀ a ∈ l, ∀ b ∈ l, ∀ c ∈ l, le a b = true → le b c = true → le a c = true) :
    List.Pairwise (fun a b => le a b = true) (sortWith le l) := by
  induction l with
  | nil => exact List.Pairwise.nil
  | cons x t ih =>
    refine pairwise_insertSorted le x (sortWith le t) ?_ ?_ ?_
    · intro b hb
      exact htot x (List.mem_cons_self x t) b
        (List.mem_cons_of_mem x (mem_sortWith.mp hb))
    · intro b hb c hc
      exact htrans x (List.mem_cons_self x t)
        b (List.mem_cons_of_mem x (mem_sortWith.mp hb))
        c (List.mem_cons_of_mem x (mem_sortWith.mp hc))
    · exact ih (fun a ha b hb => htot a (List.mem_cons_of_mem x ha) b (List.mem_cons_of_mem x hb))
        (fun a ha b hb c hc => htrans a (List.mem_cons_of_mem x ha)
          b (List.mem_cons_of_mem x hb) c (List.mem_cons_of_mem x hc))

theorem getLast?_max_of_pairwise {R : α → α → Prop} :
    ∀ {l : List α} {w : α}, List.Pairwise R l → l.getLast? = some w →
      ∀ a ∈ l, a = w ∨ R a w := by
  intro l
  induction l with
  | nil => intro w _ hw; simp at hw
  | cons x t ih =>
    intro w hp hw a ha
    rcases hp with - | ⟨hx, ht⟩
    cases t with
    | nil =>
      simp only [List.getLast?_singleton, Option.some.injEq] at hw
      rcases List.mem_cons.mp ha with rfl | ha
      · exact Or.inl hw
      · simp at ha
    | cons y u =>
      rw [List.getLast?_cons_cons] at hw
      rcases List.mem_cons.mp ha with rfl | ha
      · exact Or.inr (hx w (List.mem_of_getLast?_eq_some hw))
      · exact ih ht hw a ha

/-! ### Properties of the trick comparator -/

theorem trickCompareLe_same_suit_iff {a b : Play}
    (h : cardSuit a.card = cardSuit b.card) :
    trickCompareLe a b = true ↔
      (RANK_POWER (cardRank a.card) < RANK_POWER (cardRank b.card) ∨
       (RANK_POWER (cardRank a.card) = RANK_POWER (cardRank b.card) ∧
        a.order ≤ b.order)) := by
  unfold trickCompareLe
  by_cases hr : RANK_POWER (cardRank a.card) = RANK_POWER (cardRank b.card)
  · simp [hr, h]
  · simp [hr]

theorem contendersOf_eq_filter (plays : List Play) (ledSuit : Suit)
    (trumpSuit : Option Suit) :
    ∃ s, contendersOf plays ledSuit trumpSuit =
      plays.filter (fun p => cardSuit p.card == s) := by
  cases trumpSuit with
  | none => exact ⟨ledSuit, rfl⟩
  | some t =>
    by_cases h : plays.any (fun p => cardSuit p.card == t) = true
    · exact ⟨t, by simp [contendersOf, h]⟩
    · exact ⟨ledSuit, by simp [contendersOf, h]⟩

theorem suit_of_mem_contendersOf {plays : List Play} {ledSuit : Suit}
    {trumpSuit : Option Suit} {s : Suit} {p : Play}
    (hC : contendersOf plays ledSuit trumpSuit =
      plays.filter (fun q => cardSuit q.card == s))
    (hp : p ∈ contendersOf plays ledSuit trumpSuit) :
    cardSuit p.card = s := by
  rw [hC] at hp
  have := List.of_mem_filter hp
  simpa using this

/-- Claim C1: for every completed trick, `evaluateTrickWinner` picks the
winner as follows: if a trump suit is active and at least one play is of the
trump suit, the contender set is exactly the trump plays, otherwise it is
exactly the plays of the led suit; among contenders the play of greatest
rank strength wins, and among equal-strength contenders (possible only with
a two-deck duplicate card) the play with the higher order (the later play)
wins. -/
theorem evaluateTrickWinner_correct (plays : List Play) (ledSuit : Suit)
    (trumpSuit : Option Suit) (w : Play)
    (hw : evaluateTrickWinner plays ledSuit trumpSuit = some w) :
    w ∈ contendersOf plays ledSuit trumpSuit ∧
    (∀ t, trumpSuit = some t → (∃ q ∈ plays, cardSuit q.card = t) →
      contendersOf plays ledSuit trumpSuit =
        plays.filter (fun p => cardSuit p.card == t)) ∧
    ((∀ t, trumpSuit = some t → ∀ q ∈ plays, cardSuit q.card ≠ t) →
      contendersOf plays ledSuit trumpSuit =
        plays.filter (fun p => cardSuit p.card == ledSuit)) ∧
    (∀ p ∈ contendersOf plays ledSuit trumpSuit,
      RANK_POWER (cardRank p.card) < RANK_POWER (cardRank w.card) ∨
      (RANK_POWER (cardRank p.card) = RANK_POWER (cardRank w.card) ∧
       p.order ≤ w.order)) := by
  obtain ⟨s, hC⟩ := contendersOf_eq_filter plays ledSuit trumpSuit
  unfold evaluateTrickWinner at hw
  have hwmem : w ∈ contendersOf plays ledSuit trumpSuit :=
    mem_sortWith.mp (List.mem_of_getLast?_eq_some hw)
  refine ⟨hwmem, ?_, ?_, ?_⟩
  · rintro t rfl ⟨q, hq, hqt⟩
    have hany : plays.any (fun p => cardSuit p.card == t) = true :=
      List.any_eq_true.mpr ⟨q, hq, by simpa using hqt⟩
    simp [contendersOf, hany]
  · intro hnone
    cases trumpSuit with
    | none => rfl
    | some t =>
      have hany : ¬ plays.any (fun p => cardSuit p.card == t) = true := by
        rw [List.any_eq_true]
        rintro ⟨q, hq, hqt⟩
        exact hnone t rfl q hq (by simpa using hqt)
      simp [contendersOf, hany]
  · have hpair :
        List.Pairwise (fun a b => trickCompareLe a b = true)
          (sortWith trickCompareLe (contendersOf plays ledSuit trumpSuit)) := by
      refine pairwise_sortWith _ _ ?_ ?_
      · intro a ha b hb
        have hsa := suit_of_mem_contendersOf hC ha
        have hsb := suit_of_mem_contendersOf hC hb
        rw [trickCompareLe_same_suit_iff (by rw [hsa, hsb]),
          trickCompareLe_same_suit_iff (by rw [hsa, hsb])]
        omega
      · intro a ha b hb c hc
        have hsa := suit_of_mem_contendersOf hC ha
        have hsb := suit_of_mem_contendersOf hC hb
        have hsc := suit_of_mem_contendersOf hC hc
        rw [trickCompareLe_same_suit_iff (by rw [hsa, hsb]),
          trickCompareLe_same_suit_iff (by rw [hsb, hsc]),
          trickCompareLe_same_suit_iff (by rw [hsa, hsc])]
        omega
    intro p hp
    have hps := suit_of_mem_contendersOf hC hp
    have hws := suit_of_mem_contendersOf hC hwmem
    rcases getLast?_max_of_pairwise hpair hw p (mem_sortWith.mpr hp) with rfl | hle
    · omega
    · have := (trickCompareLe_same_suit_iff (a := p) (b := w)
        (by rw [hps, hws])).mp hle
      omega

/-- Witness for C1 at the spec's worked example: plays T♠, K♠, A♥, 9♠ with
led suit Spades and no trump active; the winner is K♠ (seat 1). -/
theorem evaluateTrickWinner_correct_witness :
    (⟨1, ⟨Rank.K, Suit.S⟩, 1⟩ : Play) ∈
      contendersOf
        [⟨0, ⟨Rank.T, Suit.S⟩, 0⟩, ⟨1, ⟨Rank.K, Suit.S⟩, 1⟩,
         ⟨2, ⟨Rank.A, Suit.H⟩, 2⟩, ⟨3, ⟨Rank.N9, Suit.S⟩, 3⟩] Suit.S none ∧
    (∀ t, (none : Option Suit) = some t →
      (∃ q ∈ [(⟨0, ⟨Rank.T, Suit.S⟩, 0⟩ : Play), ⟨1, ⟨Rank.K, Suit.S⟩, 1⟩,
         ⟨2, ⟨Rank.A, Suit.H⟩, 2⟩, ⟨3, ⟨Rank.N9, Suit.S⟩, 3⟩], cardSuit q.card = t) →
      contendersOf
        [⟨0, ⟨Rank.T, Suit.S⟩, 0⟩, ⟨1, ⟨Rank.K, Suit.S⟩, 1⟩,
         ⟨2, ⟨Rank.A, Suit.H⟩, 2⟩, ⟨3, ⟨Rank.N9, Suit.S⟩, 3⟩] Suit.S none =
        [⟨0, ⟨Rank.T, Suit.S⟩, 0⟩, ⟨1, ⟨Rank.K, Suit.S⟩, 1⟩,
         ⟨2, ⟨Rank.A, Suit.H⟩, 2⟩, ⟨3, ⟨Rank.N9, Suit.S⟩, 3⟩].filter
          (fun p => cardSuit p.card == t)) ∧
    ((∀ t, (none : Option Suit) = some t →
      ∀ q ∈ [(⟨0, ⟨Rank.T, Suit.S⟩, 0⟩ : Play), ⟨1, ⟨Rank.K, Suit.S⟩, 1⟩,
         ⟨2, ⟨Rank.A, Suit.H⟩, 2⟩, ⟨3, ⟨Rank.N9, Suit.S⟩, 3⟩], cardSuit q.card ≠ t) →
      contendersOf
        [⟨0, ⟨Rank.T, Suit.S⟩, 0⟩, ⟨1, ⟨Rank.K, Suit.S⟩, 1⟩,
         ⟨2, ⟨Rank.A, Suit.H⟩, 2⟩, ⟨3, ⟨Rank.N9, Suit.S⟩, 3⟩] Suit.S none =
        [⟨0, ⟨Rank.T, Suit.S⟩, 0⟩, ⟨1, ⟨Rank.K, Suit.S⟩, 1⟩,
         ⟨2, ⟨Rank.A, Suit.H⟩, 2⟩, ⟨3, ⟨Rank.N9, Suit.S⟩, 3⟩].filter
          (fun p => cardSuit p.card == Suit.S)) ∧
    (∀ p ∈ contendersOf
        [⟨0, ⟨Rank.T, Suit.S⟩, 0⟩, ⟨1, ⟨Rank.K, Suit.S⟩, 1⟩,
         ⟨2, ⟨Rank.A, Suit.H⟩, 2⟩, ⟨3, ⟨Rank.N9, Suit.S⟩, 3⟩] Suit.S none,
      RANK_POWER (cardRank p.card) <
        RANK_POWER (cardRank ((⟨1, ⟨Rank.K, Suit.S⟩, 1⟩ : Play)).card) ∨
      (RANK_POWER (cardRank p.card) =
        RANK_POWER (cardRank ((⟨1, ⟨Rank.K, Suit.S⟩, 1⟩ : Play)).card) ∧
       p.order ≤ (⟨1, ⟨Rank.K, Suit.S⟩, 1⟩ : Play).order)) :=
  evaluateTrickWinner_correct
    [⟨0, ⟨Rank.T, Suit.S⟩, 0⟩, ⟨1, ⟨Rank.K, Suit.S⟩, 1⟩,
     ⟨2, ⟨Rank.A, Suit.H⟩, 2⟩, ⟨3, ⟨Rank.N9, Suit.S⟩, 3⟩]
    Suit.S none ⟨1, ⟨Rank.K, Suit.S⟩, 1⟩ (by decide)

/-- Claim C10: `evaluateTrickWinner` returns an element of its input exactly
when some play follows the led suit or (with a trump suit supplied) some
play is a trump; with no such play the contender set is empty and the final
`contenders[contenders.length - 1]` indexes out of bounds (`none` here). -/
theorem evaluateTrickWinner_total_iff (plays : List Play) (ledSuit : Suit)
    (trumpSuit : Option Suit) :
    (∃ w, evaluateTrickWinner plays ledSuit trumpSuit = some w ∧ w ∈ plays) ↔
      ((∃ p ∈ plays, cardSuit p.card = ledSuit) ∨
       (∃ t, trumpSuit = some t ∧ ∃ p ∈ plays, cardSuit p.card = t)) := by
  constructor
  · rintro ⟨w, hw, -⟩
    have hwC : w ∈ contendersOf plays ledSuit trumpSuit :=
      mem_sortWith.mp (List.mem_of_getLast?_eq_some hw)
    cases trumpSuit with
    | none =>
      have hwf := hwC
      simp only [contendersOf] at hwf
      have := List.of_mem_filter hwf
      exact Or.inl ⟨w, List.mem_of_mem_filter hwf, by simpa using this⟩
    | some t =>
      by_cases h : plays.any (fun p => cardSuit p.card == t) = true
      · rw [List.any_eq_true] at h
        obtain ⟨p, hp, hpt⟩ := h
        exact Or.inr ⟨t, rfl, p, hp, by simpa using hpt⟩
      · have hwf := hwC
        simp only [contendersOf, if_neg h] at hwf
        have := List.of_mem_filter hwf
        exact Or.inl ⟨w, List.mem_of_mem_filter hwf, by simpa using this⟩
  · intro h
    have hne : contendersOf plays ledSuit trumpSuit ≠ [] := by
      cases trumpSuit with
      | none =>
        rcases h with ⟨p, hp, hps⟩ | ⟨t, ht, -⟩
        · simp only [contendersOf]
          exact List.ne_nil_of_mem (List.mem_filter.mpr ⟨hp, by simpa using hps⟩)
        · exact absurd ht (by simp)
      | some t =>
        by_cases hany : plays.any (fun p => cardSuit p.card == t) = true
        · simp only [contendersOf, if_pos hany]
          rw [List.any_eq_true] at hany
          obtain ⟨p, hp, hpt⟩ := hany
          exact List.ne_nil_of_mem (List.mem_filter.mpr ⟨hp, hpt⟩)
        · simp only [contendersOf, if_neg hany]
          rcases h with ⟨p, hp, hps⟩ | ⟨t', ht', p, hp, hps⟩
          · exact List.ne_nil_of_mem (List.mem_filter.mpr ⟨hp, by simpa using hps⟩)
          · rw [Option.some.injEq] at ht'
            subst ht'
            exact absurd (List.any_eq_true.mpr ⟨p, hp, by simpa using hps⟩) hany
    have hne' : sortWith trickCompareLe (contendersOf plays ledSuit trumpSuit) ≠ [] := by
      intro hnil
      apply hne
      have hperm := sortWith_perm trickCompareLe (contendersOf plays ledSuit trumpSuit)
      rw [hnil] at hperm
      exact hperm.symm.eq_nil
    obtain ⟨w, hw⟩ := Option.isSome_iff_exists.mp (List.getLast?_isSome.mpr hne')
    refine ⟨w, hw, ?_⟩
    obtain ⟨s, hC⟩ := contendersOf_eq_filter plays ledSuit trumpSuit
    have hmem := mem_sortWith.mp (List.mem_of_getLast?_eq_some hw)
    rw [hC] at hmem
    exact List.mem_of_mem_filter hmem

/-! ### The Fisher-Yates shuffle is a permutation -/

theorem cons_set_perm :
    ∀ (t : List α) (m : Nat) (x y : α), t[m]? = some y →
      (y :: t.set m x).Perm (x :: t) := by
  intro t
  induction t with
  | nil => intro m x y h; simp at h
  | cons b t' ih =>
    intro m x y h
    cases m with
    | zero =>
      simp only [List.getElem?_cons_zero, Option.some.injEq] at h
      subst h
      simpa using List.Perm.swap x b t'
    | succ k =>
      simp only [List.getElem?_cons_succ] at h
      have h1 : (y :: b :: t'.set k x).Perm (b :: y :: t'.set k x) :=
        List.Perm.swap b y _
      have h2 : (b :: y :: t'.set k x).Perm (b :: x :: t') := (ih k x y h).cons b
      have h3 : (b :: x :: t').Perm (x :: b :: t') := List.Perm.swap x b t'
      simpa using (h1.trans h2).trans h3

theorem set_set_swap_perm :
    ∀ (l : List α) (i j : Nat) (x y : α), l[i]? = some x → l[j]? = some y →
      (((l.set i y).set j x)).Perm l := by
  intro l
  induction l with
  | nil => intro i j x y hi hj; simp at hi
  | cons a t ih =>
    intro i j x y hi hj
    cases i with
    | zero =>
      simp only [List.getElem?_cons_zero, Option.some.injEq] at hi
      subst hi
      cases j with
      | zero => simp
      | succ m =>
        simp only [List.getElem?_cons_succ] at hj
        simpa using cons_set_perm t m a y hj
    | succ k =>
      simp only [List.getElem?_cons_succ] at hi
      cases j with
      | zero =>
        simp only [List.getElem?_cons_zero, Option.some.injEq] at hj
        subst hj
        simpa using cons_set_perm t k a x hi
      | succ m =>
        simp only [List.getElem?_cons_succ] at hj
        simpa using ((ih k m x y hi hj).cons a)

theorem listSwap_perm (l : List α) (i j : Nat) : (listSwap l i j).Perm l := by
  unfold listSwap
  cases hi : l[i]? with
  | none => exact List.Perm.refl l
  | some x =>
    cases hj : l[j]? with
    | none => exact List.Perm.refl l
    | some y => exact set_set_swap_perm l i j x y hi hj

theorem shuffleGo_perm (rand : Nat → Nat) :
    ∀ (n : Nat) (l : List α), (shuffleGo rand n l).Perm l := by
  intro n
  induction n with
  | zero => intro l; exact List.Perm.refl l
  | succ i ih =>
    intro l
    exact (ih _).trans (listSwap_perm l (i + 1) (rand (i + 1) % (i + 2)))

theorem shuffle_perm (l : List α) (rand : Nat → Nat) : (shuffle l rand).Perm l :=
  shuffleGo_perm rand (l.length - 1) l

/-- Claim C8: for every input sequence and seed, `shuffle` returns a
permutation of the input (same multiset), and is deterministic: two calls
with identical seed (`rand` stream) and identical input produce identical
output.  The source never mutates its input (it works on `arr.slice()`);
in this pure embedding the input list is a value and is untouched by
construction. -/
theorem shuffle_spec {α : Type} (l l' : List α) (rand rand' : Nat → Nat)
    (h1 : l = l') (h2 : rand = rand') :
    (shuffle l rand).Perm l ∧ shuffle l rand = shuffle l' rand' := by
  subst h1
  subst h2
  exact ⟨shuffle_perm l rand, rfl⟩

/-- Witness for C8 on a concrete three-card deck and constant stream. -/
theorem shuffle_spec_witness :
    (shuffle ([⟨Rank.A, Suit.S⟩, ⟨Rank.K, Suit.S⟩, ⟨Rank.Q, Suit.S⟩] : List Card)
      (fun _ => 0)).Perm
        ([⟨Rank.A, Suit.S⟩, ⟨Rank.K, Suit.S⟩, ⟨Rank.Q, Suit.S⟩] : List Card) ∧
    shuffle ([⟨Rank.A, Suit.S⟩, ⟨Rank.K, Suit.S⟩, ⟨Rank.Q, Suit.S⟩] : List Card)
        (fun _ => 0) =
      shuffle ([⟨Rank.A, Suit.S⟩, ⟨Rank.K, Suit.S⟩, ⟨Rank.Q, Suit.S⟩] : List Card)
        (fun _ => 0) :=
  shuffle_spec
    ([⟨Rank.A, Suit.S⟩, ⟨Rank.K, Suit.S⟩, ⟨Rank.Q, Suit.S⟩] : List Card)
    ([⟨Rank.A, Suit.S⟩, ⟨Rank.K, Suit.S⟩, ⟨Rank.Q, Suit.S⟩] : List Card)
    (fun _ => 0) (fun _ => 0) rfl rfl

/-! ### Round-robin dealing: conservation and hand sizes -/

/-- All cards held across a table of hands, as a multiset. -/
def handsCards (raw : List (List Card)) : Multiset Card :=
  (raw.map (fun h => (h : Multiset Card))).sum

theorem length_modifyAt (i : Nat) (f : α → α) :
    ∀ l : List α, (modifyAt i f l).length = l.length := by
  induction i with
  | zero => intro l; cases l <;> simp [modifyAt]
  | succ k ih =>
    intro l
    cases l with
    | nil => simp [modifyAt]
    | cons a t => simp [modifyAt, ih t]

theorem getElem?_modifyAt_self (f : α → α) :
    ∀ (l : List α) (i : Nat), (modifyAt i f l)[i]? = l[i]?.map f := by
  intro l
  induction l with
  | nil => intro i; simp [modifyAt]
  | cons a t ih =>
    intro i
    cases i with
    | zero => simp [modifyAt]
    | succ k => simpa [modifyAt] using ih k

theorem getElem?_modifyAt_ne (f : α → α) :
    ∀ (l : List α) (i j : Nat), i ≠ j → (modifyAt i f l)[j]? = l[j]? := by
  intro l
  induction l with
  | nil => intro i j _; simp [modifyAt]
  | cons a t ih =>
    intro i j hij
    cases i with
    | zero =>
      cases j with
      | zero => exact absurd rfl hij
      | succ m => simp [modifyAt]
    | succ k =>
      cases j with
      | zero => simp [modifyAt]
      | succ m => simpa [modifyAt] using ih k m (by omega)

theorem handsCards_nil : handsCards [] = 0 := rfl

theorem handsCards_cons (h : List Card) (t : List (List Card)) :
    handsCards (h :: t) = (h : Multiset Card) + handsCards t := rfl

theorem handsCards_modifyAt_append (c : Card) :
    ∀ (raw : List (List Card)) (seat : Nat), seat < raw.length →
      handsCards (modifyAt seat (fun h => h ++ [c]) raw) = handsCards raw + {c} := by
  intro raw
  induction raw with
  | nil => intro seat h; simp at h
  | cons hd tl ih =>
    intro seat h
    cases seat with
    | zero =>
      show handsCards ((hd ++ [c]) :: tl) = handsCards (hd :: tl) + {c}
      rw [handsCards_cons, handsCards_cons]
      have hcoe : ((hd ++ [c] : List Card) : Multiset Card) =
          (hd : Multiset Card) + {c} := by
        rw [← Multiset.coe_singleton, Multiset.coe_add]
      rw [hcoe]
      exact add_right_comm _ _ _
    | succ k =>
      show handsCards (hd :: modifyAt k (fun h => h ++ [c]) tl) =
        handsCards (hd :: tl) + {c}
      rw [handsCards_cons, handsCards_cons,
        ih k (by simp only [List.length_cons] at h; omega)]
      exact (add_assoc _ _ _).symm

theorem length_dealToPlayersGo (players : Nat) :
    ∀ (cards : List Card) (seat : Nat) (raw : List (List Card)),
      (dealToPlayersGo players cards seat raw).length = raw.length := by
  intro cards
  induction cards with
  | nil => intro seat raw; rfl
  | cons c rest ih =>
    intro seat raw
    simp only [dealToPlayersGo]
    rw [ih, length_modifyAt]

theorem handsCards_dealToPlayersGo (players : Nat) (hp : 0 < players) :
    ∀ (cards : List Card) (seat : Nat) (raw : List (List Card)),
      seat < players → raw.length = players →
      handsCards (dealToPlayersGo players cards seat raw) =
        handsCards raw + (cards : Multiset Card) := by
  intro cards
  induction cards with
  | nil => intro seat raw _ _; simp [dealToPlayersGo]
  | cons c rest ih =>
    intro seat raw hseat hraw
    simp only [dealToPlayersGo]
    rw [ih ((seat + 1) % players) _ (Nat.mod_lt _ hp) (by rw [length_modifyAt]; exact hraw),
      handsCards_modifyAt_append c raw seat (by omega)]
    have hcoe : ((c :: rest : List Card) : Multiset Card) =
        {c} + (rest : Multiset Card) := by
      rw [Multiset.singleton_add, Multiset.cons_coe]
    rw [hcoe]
    exact add_assoc _ _ _

theorem getElem?_dealToPlayersGo_length (players : Nat) (hp : 0 < players) :
    ∀ (cards : List Card) (seat : Nat) (raw : List (List Card)) (s : Nat),
      seat < players → raw.length = players → s < players →
      (((dealToPlayersGo players cards seat raw)[s]?.getD []).length) =
        ((raw[s]?.getD []).length) +
          (List.range cards.length).countP (fun i => (seat + i) % players == s) := by
  intro cards
  induction cards with
  | nil => intro seat raw s _ _ _; simp [dealToPlayersGo]
  | cons c rest ih =>
    intro seat raw s hseat hraw hs
    simp only [dealToPlayersGo, List.length_cons]
    rw [ih ((seat + 1) % players) _ s (Nat.mod_lt _ hp)
      (by rw [length_modifyAt]; exact hraw) hs]
    have hre : (List.range (rest.length + 1)).countP
        (fun i => (seat + i) % players == s) =
        ((List.range rest.length).countP
          (fun i => (((seat + 1) % players) + i) % players == s)) +
          (if seat = s then 1 else 0) := by
      rw [List.range_succ_eq_map, List.countP_cons, List.countP_map]
      have hcomp : ((fun i => (seat + i) % players == s) ∘ Nat.succ) =
          (fun i => (((seat + 1) % players) + i) % players == s) := by
        funext i
        simp only [Function.comp]
        have he : (seat + Nat.succ i) % players =
            (((seat + 1) % players) + i) % players := by
          have e1 : seat + Nat.succ i = (seat + 1) + i := by omega
          rw [e1]
          conv_lhs => rw [Nat.add_mod]
          conv_rhs => rw [Nat.add_mod]
          rw [Nat.mod_mod_of_dvd _ (dvd_refl players)]
        rw [he]
      rw [hcomp]
      have hz : ((seat + 0) % players == s) = (decide (seat = s)) := by
        rw [Nat.add_zero, Nat.mod_eq_of_lt hseat]
        cases h : decide (seat = s) with
        | true => simp at h; simp [h]
        | false => simp at h; simp [h]
      rw [hz]
      by_cases h : seat = s <;> simp [h]
    rw [hre]
    by_cases hcase : seat = s
    · subst hcase
      obtain ⟨x, hsome⟩ : ∃ x, raw[seat]? = some x :=
        ⟨_, List.getElem?_eq_getElem (by omega)⟩
      rw [getElem?_modifyAt_self, hsome]
      simp only [Option.map_some', Option.getD_some, List.length_append,
        List.length_singleton, eq_self_iff_true, if_true]
      omega
    · rw [getElem?_modifyAt_ne _ _ _ _ hcase]
      simp only [if_neg hcase]
      omega

theorem countP_range_cycle (players : Nat) (hp : 0 < players) (s seat : Nat)
    (hs : s < players) :
    (List.range players).countP (fun j => (seat + j) % players == s) = 1 := by
  have hfun : (fun j => (seat + j) % players == s) =
      (fun j => ((seat % players) + j) % players == s) := by
    funext j
    have he : (seat + j) % players = ((seat % players) + j) % players := by
      conv_lhs => rw [Nat.add_mod]
      conv_rhs => rw [Nat.add_mod]
      rw [Nat.mod_mod_of_dvd _ (dvd_refl players)]
    rw [he]
  rw [hfun]
  have ha : seat % players < players := Nat.mod_lt _ hp
  generalize seat % players = a at ha
  have hkey : ∀ j ∈ List.range players,
      (((a + j) % players == s) = true ↔ (j == (if a ≤ s then s - a else s + players - a)) = true) := by
    intro j hj
    rw [List.mem_range] at hj
    rw [beq_iff_eq, beq_iff_eq]
    constructor
    · intro h
      by_cases hlt : a + j < players
      · rw [Nat.mod_eq_of_lt hlt] at h
        have hle : a ≤ s := by omega
        rw [if_pos hle]
        omega
      · have he : (a + j) % players = a + j - players := by
          rw [Nat.mod_eq_sub_mod (by omega), Nat.mod_eq_of_lt (by omega)]
        rw [he] at h
        have hgt : ¬ a ≤ s := by omega
        rw [if_neg hgt]
        omega
    · intro h
      by_cases hle : a ≤ s
      · rw [if_pos hle] at h
        subst h
        rw [Nat.mod_eq_of_lt (by omega)]
        omega
      · rw [if_neg hle] at h
        subst h
        have he : a + (s + players - a) = s + players := by omega
        rw [he, Nat.add_mod_right, Nat.mod_eq_of_lt hs]
  rw [List.countP_congr hkey]
  have hc : (List.range players).countP
      (fun j => j == (if a ≤ s then s - a else s + players - a)) =
      (List.range players).count (if a ≤ s then s - a else s + players - a) := rfl
  rw [hc]
  exact List.count_eq_one_of_mem (List.nodup_range players)
    (List.mem_range.mpr (by
      by_cases hle : a ≤ s
      · rw [if_pos hle]; omega
      · rw [if_neg hle]; omega))

theorem countP_range_mul (players : Nat) (hp : 0 < players) (s seat : Nat)
    (hs : s < players) :
    ∀ e, (List.range (players * e)).countP
      (fun i => (seat + i) % players == s) = e := by
  intro e
  induction e with
  | zero => simp
  | succ k ih =>
    have hsplit : players * (k + 1) = players * k + players := by ring
    rw [hsplit, List.range_add, List.countP_append, ih, List.countP_map]
    have hcomp : ((fun i => (seat + i) % players == s) ∘ (players * k + ·)) =
        (fun j => (seat + j) % players == s) := by
      funext j
      simp only [Function.comp]
      have he : (seat + (players * k + j)) % players = (seat + j) % players := by
        have e1 : seat + (players * k + j) = (seat + j) + players * k := by omega
        rw [e1, Nat.add_mul_mod_self_left]
      rw [he]
    rw [hcomp, countP_range_cycle players hp s seat hs]

theorem dealToPlayers_length (deck : List Card) (players startSeat each : Nat) :
    (dealToPlayers deck players startSeat each).length = players := by
  unfold dealToPlayers
  rw [length_dealToPlayersGo, List.length_replicate]

theorem dealToPlayers_hand_length (deck : List Card) (players startSeat each s : Nat)
    (hp : 0 < players) (hstart : startSeat < players) (hs : s < players)
    (hlen : players * each ≤ deck.length) :
    (((dealToPlayers deck players startSeat each)[s]?.getD []).length) = each := by
  unfold dealToPlayers
  rw [getElem?_dealToPlayersGo_length players hp _ startSeat _ s hstart
    (List.length_replicate players []) hs]
  rw [List.getElem?_replicate_of_lt hs]
  simp only [Option.getD_some, List.length_nil, Nat.zero_add]
  rw [List.length_take, Nat.min_eq_left hlen]
  exact countP_range_mul players hp s startSeat hs each

theorem handsCards_replicate_nil : ∀ n : Nat, handsCards (List.replicate n []) = 0 := by
  intro n
  induction n with
  | zero => rfl
  | succ k ih => rw [List.replicate_succ, handsCards_cons, ih]; simp

theorem dealToPlayers_handsCards (deck : List Card) (players startSeat each : Nat)
    (hp : 0 < players) (hstart : startSeat < players)
    (hlen : players * each = deck.length) :
    handsCards (dealToPlayers deck players startSeat each) = (deck : Multiset Card) := by
  unfold dealToPlayers
  rw [handsCards_dealToPlayersGo players hp _ startSeat _ hstart
    (List.length_replicate players []), handsCards_replicate_nil, hlen,
    List.take_length]
  simp

theorem cons_eraseIdx_perm :
    ∀ (l : List α) (i : Nat) (x : α), l[i]? = some x → (x :: l.eraseIdx i).Perm l := by
  intro l
  induction l with
  | nil => intro i x h; simp at h
  | cons a t ih =>
    intro i x h
    cases i with
    | zero =>
      simp only [List.getElem?_cons_zero, Option.some.injEq] at h
      subst h
      simp [List.eraseIdx]
    | succ k =>
      simp only [List.getElem?_cons_succ] at h
      simp only [List.eraseIdx_cons_succ]
      exact (List.Perm.swap a x _).trans ((ih k x h).cons a)

theorem coe_eraseIdx_add (l : List Card) (i : Nat) (x : Card)
    (h : l[i]? = some x) :
    ((l.eraseIdx i : List Card) : Multiset Card) + {x} = (l : Multiset Card) := by
  have hp := Multiset.coe_eq_coe.mpr (cons_eraseIdx_perm l i x h)
  rw [← hp, ← Multiset.cons_coe, ← Multiset.singleton_add]
  exact add_comm _ _

theorem handsCards_set :
    ∀ (raw : List (List Card)) (i : Nat) (old new : List Card),
      raw[i]? = some old →
      handsCards (raw.set i new) + (old : Multiset Card) =
        handsCards raw + (new : Multiset Card) := by
  intro raw
  induction raw with
  | nil => intro i old new h; simp at h
  | cons hd tl ih =>
    intro i old new h
    cases i with
    | zero =>
      simp only [List.getElem?_cons_zero, Option.some.injEq] at h
      subst h
      rw [List.set_cons_zero, handsCards_cons, handsCards_cons]
      abel
    | succ k =>
      simp only [List.getElem?_cons_succ] at h
      rw [List.set_cons_succ, handsCards_cons, handsCards_cons, add_assoc,
        ih k old new h, add_assoc]

theorem map_mapIdx (l : List α) (f : Nat → α → β) (g : β → γ) :
    (l.mapIdx f).map g = l.mapIdx (fun i a => g (f i a)) := by
  apply List.ext_getElem?
  intro i
  simp [Option.map_map, Function.comp_def]

theorem mapIdx_const_idx (l : List α) (f : α → β) :
    l.mapIdx (fun _ a => f a) = l.map f := by
  apply List.ext_getElem?
  intro i
  simp

theorem handsCards_map_sortWith (le : Card → Card → Bool) :
    ∀ raw : List (List Card), handsCards (raw.map (sortWith le)) = handsCards raw := by
  intro raw
  induction raw with
  | nil => rfl
  | cons hd tl ih =>
    rw [List.map_cons, handsCards_cons, handsCards_cons, ih,
      Multiset.coe_eq_coe.mpr (sortWith_perm le hd)]

theorem planDeal_eq (players deckCount hiderSeat leaderSeat : Nat)
    (rand : Nat → Nat) (randIdx : Nat)
    (hp : 0 < players) (hh : hiderSeat < players) (hl : leaderSeat < players)
    (hlen : players * cardsPerPlayer players deckCount ≤
      (buildDecksNoTwos deckCount).length)
    (hidx : randIdx < cardsPerPlayer players deckCount) :
    ∃ (hiderHand : List Card) (hc : Card),
      (dealToPlayers (shuffle (buildDecksNoTwos deckCount) rand) players
          leaderSeat (cardsPerPlayer players deckCount))[hiderSeat]? = some hiderHand ∧
      hiderHand[randIdx]? = some hc ∧
      hiderHand.length = cardsPerPlayer players deckCount ∧
      planDeal players deckCount hiderSeat leaderSeat rand randIdx =
        some { deckCount := deckCount, players := players, hiderSeat := hiderSeat,
               leaderSeat := leaderSeat, trumpSuit := cardSuit hc,
               hands := ((dealToPlayers (shuffle (buildDecksNoTwos deckCount) rand)
                   players leaderSeat (cardsPerPlayer players deckCount)).set hiderSeat
                   (hiderHand.eraseIdx randIdx)).mapIdx
                 (fun s arr =>
                   { visible := sortWith sortBySuitRank arr,
                     hidden := if s = hiderSeat then some hc else none }) } := by
  have hplen : (shuffle (buildDecksNoTwos deckCount) rand).length =
      (buildDecksNoTwos deckCount).length := (shuffle_perm _ _).length_eq
  have hrawlen : (dealToPlayers (shuffle (buildDecksNoTwos deckCount) rand) players
      leaderSeat (cardsPerPlayer players deckCount)).length = players :=
    dealToPlayers_length _ _ _ _
  obtain ⟨hiderHand, h1⟩ :
      ∃ hh, (dealToPlayers (shuffle (buildDecksNoTwos deckCount) rand) players
        leaderSeat (cardsPerPlayer players deckCount))[hiderSeat]? = some hh :=
    ⟨_, List.getElem?_eq_getElem (by omega)⟩
  have hhl : hiderHand.length = cardsPerPlayer players deckCount := by
    have hdl := dealToPlayers_hand_length (shuffle (buildDecksNoTwos deckCount) rand)
      players leaderSeat (cardsPerPlayer players deckCount) hiderSeat hp hl hh
      (by rw [hplen]; exact hlen)
    rw [h1] at hdl
    simpa using hdl
  obtain ⟨hc, h2⟩ : ∃ c, hiderHand[randIdx]? = some c :=
    ⟨_, List.getElem?_eq_getElem (by omega)⟩
  refine ⟨hiderHand, hc, h1, h2, hhl, ?_⟩
  unfold planDeal
  rw [h1, Option.some_bind, h2, Option.map_some']

/-- Claim C2 (amended): whenever the per-seat table exactly exhausts the deck
(`players * cardsPerPlayer players deckCount = deck.length` — true of every
supported configuration: 4, 6 or 8 players with one deck and 8 players with
two), the visible hands of `planDeal` plus the single hidden card form
exactly the multiset of the built deck; exactly one card is hidden, held at
the hider's seat; it comes from the hider's dealt hand; and `trumpSuit` is
its suit.  (As stated, the claim also covered player counts that do not
divide the deck, where cards are dropped — see the counterexample.) -/
theorem planDeal_partitions_deck (players deckCount hiderSeat leaderSeat : Nat)
    (rand : Nat → Nat) (randIdx : Nat)
    (hp : 0 < players) (hh : hiderSeat < players) (hl : leaderSeat < players)
    (hdiv : players * cardsPerPlayer players deckCount =
      (buildDecksNoTwos deckCount).length)
    (hidx : randIdx < cardsPerPlayer players deckCount) :
    ∃ (plan : DealPlan) (hc : Card),
      planDeal players deckCount hiderSeat leaderSeat rand randIdx = some plan ∧
      handsCards (plan.hands.map Hand.visible) + {hc} =
        ((buildDecksNoTwos deckCount : List Card) : Multiset Card) ∧
      (∀ s, s < players → plan.hands[s]?.map Hand.hidden =
        some (if s = hiderSeat then some hc else none)) ∧
      plan.trumpSuit = cardSuit hc ∧
      hc ∈ ((dealToPlayers (shuffle (buildDecksNoTwos deckCount) rand) players
        leaderSeat (cardsPerPlayer players deckCount))[hiderSeat]?.getD []) := by
  obtain ⟨hiderHand, hc, h1, h2, hhl, hplan⟩ :=
    planDeal_eq players deckCount hiderSeat leaderSeat rand randIdx hp hh hl
      (le_of_eq hdiv) hidx
  refine ⟨_, hc, hplan, ?_, ?_, rfl, ?_⟩
  · show handsCards
        ((((dealToPlayers (shuffle (buildDecksNoTwos deckCount) rand) players
            leaderSeat (cardsPerPlayer players deckCount)).set hiderSeat
            (hiderHand.eraseIdx randIdx)).mapIdx
          (fun s arr =>
            ({ visible := sortWith sortBySuitRank arr,
               hidden := if s = hiderSeat then some hc else none } : Hand))).map
          Hand.visible) + {hc} =
      ((buildDecksNoTwos deckCount : List Card) : Multiset Card)
    rw [map_mapIdx]
    rw [show (fun (s : Nat) (arr : List Card) => Hand.visible
          { visible := sortWith sortBySuitRank arr,
            hidden := if s = hiderSeat then some hc else none }) =
        (fun (_ : Nat) (arr : List Card) => sortWith sortBySuitRank arr) from rfl]
    rw [mapIdx_const_idx, handsCards_map_sortWith]
    have hset := handsCards_set _ hiderSeat hiderHand (hiderHand.eraseIdx randIdx) h1
    have her := coe_eraseIdx_add hiderHand randIdx hc h2
    have hraw : handsCards (dealToPlayers (shuffle (buildDecksNoTwos deckCount) rand)
        players leaderSeat (cardsPerPlayer players deckCount)) =
        ((buildDecksNoTwos deckCount : List Card) : Multiset Card) := by
      rw [dealToPlayers_handsCards _ _ _ _ hp hl
        (by rw [(shuffle_perm _ _).length_eq]; exact hdiv)]
      exact Multiset.coe_eq_coe.mpr (shuffle_perm _ _)
    have hcancel :
        handsCards ((dealToPlayers (shuffle (buildDecksNoTwos deckCount) rand) players
            leaderSeat (cardsPerPlayer players deckCount)).set hiderSeat
            (hiderHand.eraseIdx randIdx)) + {hc} + (hiderHand : Multiset Card) =
        ((buildDecksNoTwos deckCount : List Card) : Multiset Card) +
          (hiderHand : Multiset Card) := by
      rw [add_right_comm, hset, add_assoc, her, hraw]
    exact add_right_cancel hcancel
  · intro s hs
    have hslen : (((dealToPlayers (shuffle (buildDecksNoTwos deckCount) rand) players
        leaderSeat (cardsPerPlayer players deckCount)).set hiderSeat
        (hiderHand.eraseIdx randIdx))).length = players := by
      rw [List.length_set, dealToPlayers_length]
    obtain ⟨arr, harr⟩ :
        ∃ a, (((dealToPlayers (shuffle (buildDecksNoTwos deckCount) rand) players
          leaderSeat (cardsPerPlayer players deckCount)).set hiderSeat
          (hiderHand.eraseIdx randIdx)))[s]? = some a :=
      ⟨_, List.getElem?_eq_getElem (by omega)⟩
    show ((((dealToPlayers (shuffle (buildDecksNoTwos deckCount) rand) players
        leaderSeat (cardsPerPlayer players deckCount)).set hiderSeat
        (hiderHand.eraseIdx randIdx)).mapIdx
          (fun s arr =>
            ({ visible := sortWith sortBySuitRank arr,
               hidden := if s = hiderSeat then some hc else none } : Hand)))[s]?).map
        Hand.hidden = some (if s = hiderSeat then some hc else none)
    rw [List.getElem?_mapIdx, harr, Option.map_some', Option.map_some']
  · rw [h1]
    simpa using List.getElem?_mem h2

set_option maxRecDepth 10000 in
/-- Counterexample to C2 as stated.  The claim quantifies over every player
count, but with 5 players and one deck `cardsPerPlayer` falls back to
⌊48/5⌋ = 9, so only 45 of the 48 cards are dealt: the visible hands after
hiding total 44 cards, and 44 + 1 ≠ 48, so no hidden card can make the
hands-plus-hidden multiset equal the deck's multiset — three cards are
dropped. -/
theorem planDeal_five_players_drops_cards :
    ∃ plan, planDeal 5 1 0 1 (fun _ => 0) 0 = some plan ∧
      ∀ hc : Card,
        handsCards (plan.hands.map Hand.visible) + {hc} ≠
          ((buildDecksNoTwos 1 : List Card) : Multiset Card) := by
  have hcard : (planDeal 5 1 0 1 (fun _ => 0) 0).map
      (fun plan => Multiset.card (handsCards (plan.hands.map Hand.visible))) =
      some 44 := by decide
  obtain ⟨plan, hplan, hc44⟩ := Option.map_eq_some'.mp hcard
  refine ⟨plan, hplan, fun hc heq => ?_⟩
  have hcards := congrArg Multiset.card heq
  rw [Multiset.card_add, Multiset.card_singleton, hc44, Multiset.coe_card] at hcards
  have h48 : (buildDecksNoTwos 1).length = 48 := by decide
  omega

/-- Witness for the amended C2 at 4 players, one deck, hider seat 0, leader
seat 1, a constant PRNG stream and hidden-card draw 0. -/
theorem planDeal_partitions_deck_witness :
    ∃ (plan : DealPlan) (hc : Card),
      planDeal 4 1 0 1 (fun _ => 0) 0 = some plan ∧
      handsCards (plan.hands.map Hand.visible) + {hc} =
        ((buildDecksNoTwos 1 : List Card) : Multiset Card) ∧
      (∀ s, s < 4 → plan.hands[s]?.map Hand.hidden =
        some (if s = 0 then some hc else none)) ∧
      plan.trumpSuit = cardSuit hc ∧
      hc ∈ ((dealToPlayers (shuffle (buildDecksNoTwos 1) (fun _ => 0)) 4 1
        (cardsPerPlayer 4 1))[0]?.getD []) :=
  planDeal_partitions_deck 4 1 0 1 (fun _ => 0) 0 (by decide) (by decide)
    (by decide) (by decide) (by decide)

set_option maxRecDepth 10000 in
/-- Counterexample to C3 as stated: two calls of `planDeal` with identical
playerCount, deckCount, hiderSeat, leaderSeat and seed need not return the
same DealPlan, because the hidden card is chosen by an *unseeded*
`Math.random()` call (`mindi.ts` line 45, modelled by `randIdx`): draws 0
and 1 give different plans. -/
theorem planDeal_same_seed_differs :
    ¬ ∀ (randIdx randIdx' : Nat),
        planDeal 4 1 0 1 (fun _ => 0) randIdx =
          planDeal 4 1 0 1 (fun _ => 0) randIdx' := by
  intro hall
  exact absurd (hall 0 1) (by decide)

/-- Claim C3 (amended): dealing is reproducible given the seed *and* the
hidden-card draw.  With identical playerCount, deckCount, hiderSeat,
leaderSeat, seed stream and `Math.random()` draw the two DealPlans are
identical; with the same seed but different draws every seat other than the
hider still receives the identical hand, and the hider's visible cards plus
hidden card form the same multiset — only the unseeded hidden-card choice
(and hence possibly the trump suit) varies. -/
theorem planDeal_seed_reproducible (players deckCount hiderSeat leaderSeat : Nat)
    (rand : Nat → Nat) (randIdx randIdx' : Nat)
    (hp : 0 < players) (hh : hiderSeat < players) (hl : leaderSeat < players)
    (hlen : players * cardsPerPlayer players deckCount ≤
      (buildDecksNoTwos deckCount).length)
    (hidx : randIdx < cardsPerPlayer players deckCount)
    (hidx' : randIdx' < cardsPerPlayer players deckCount) :
    (randIdx = randIdx' →
      planDeal players deckCount hiderSeat leaderSeat rand randIdx =
        planDeal players deckCount hiderSeat leaderSeat rand randIdx') ∧
    ∃ plan plan',
      planDeal players deckCount hiderSeat leaderSeat rand randIdx = some plan ∧
      planDeal players deckCount hiderSeat leaderSeat rand randIdx' = some plan' ∧
      (∀ s, s ≠ hiderSeat → plan.hands[s]? = plan'.hands[s]?) ∧
      (∀ h h', plan.hands[hiderSeat]? = some h → plan'.hands[hiderSeat]? = some h' →
        (h.visible : Multiset Card) + (h.hidden.elim 0 fun c => {c}) =
          (h'.visible : Multiset Card) + (h'.hidden.elim 0 fun c => {c})) := by
  refine ⟨fun he => by rw [he], ?_⟩
  obtain ⟨hiderHand, hc, h1, h2, hhl, hplan⟩ :=
    planDeal_eq players deckCount hiderSeat leaderSeat rand randIdx hp hh hl hlen hidx
  obtain ⟨hiderHand', hc', h1', h2', hhl', hplan'⟩ :=
    planDeal_eq players deckCount hiderSeat leaderSeat rand randIdx' hp hh hl hlen hidx'
  rw [h1, Option.some.injEq] at h1'
  subst h1'
  have hrawlen : (dealToPlayers (shuffle (buildDecksNoTwos deckCount) rand) players
      leaderSeat (cardsPerPlayer players deckCount)).length = players :=
    dealToPlayers_length _ _ _ _
  refine ⟨_, _, hplan, hplan', ?_, ?_⟩
  · intro s hsne
    show (((dealToPlayers (shuffle (buildDecksNoTwos deckCount) rand)
        players leaderSeat (cardsPerPlayer players deckCount)).set hiderSeat
        (hiderHand.eraseIdx randIdx)).mapIdx
          (fun s arr =>
            ({ visible := sortWith sortBySuitRank arr,
               hidden := if s = hiderSeat then some hc else none } : Hand)))[s]? =
      (((dealToPlayers (shuffle (buildDecksNoTwos deckCount) rand)
        players leaderSeat (cardsPerPlayer players deckCount)).set hiderSeat
        (hiderHand.eraseIdx randIdx')).mapIdx
          (fun s arr =>
            ({ visible := sortWith sortBySuitRank arr,
               hidden := if s = hiderSeat then some hc' else none } : Hand)))[s]?
    rw [List.getElem?_mapIdx, List.getElem?_mapIdx,
      List.getElem?_set_ne (Ne.symm hsne), List.getElem?_set_ne (Ne.symm hsne)]
    cases harr : (dealToPlayers (shuffle (buildDecksNoTwos deckCount) rand)
        players leaderSeat (cardsPerPlayer players deckCount))[s]? with
    | none => rfl
    | some arr => simp [if_neg hsne]
  · intro h h' ha ha'
    have hset : ((dealToPlayers (shuffle (buildDecksNoTwos deckCount) rand)
        players leaderSeat (cardsPerPlayer players deckCount)).set hiderSeat
        (hiderHand.eraseIdx randIdx))[hiderSeat]? = some (hiderHand.eraseIdx randIdx) :=
      List.getElem?_set_self (by omega)
    have hset' : ((dealToPlayers (shuffle (buildDecksNoTwos deckCount) rand)
        players leaderSeat (cardsPerPlayer players deckCount)).set hiderSeat
        (hiderHand.eraseIdx randIdx'))[hiderSeat]? = some (hiderHand.eraseIdx randIdx') :=
      List.getElem?_set_self (by omega)
    have hv : some h =
        some ({ visible := sortWith sortBySuitRank (hiderHand.eraseIdx randIdx),
                hidden := some hc } : Hand) := by
      rw [← ha]
      show (((dealToPlayers (shuffle (buildDecksNoTwos deckCount) rand)
          players leaderSeat (cardsPerPlayer players deckCount)).set hiderSeat
          (hiderHand.eraseIdx randIdx)).mapIdx
            (fun s arr =>
              ({ visible := sortWith sortBySuitRank arr,
                 hidden := if s = hiderSeat then some hc else none } : Hand)))[hiderSeat]? = _
      rw [List.getElem?_mapIdx, hset, Option.map_some']
      simp
    have hv' : some h' =
        some ({ visible := sortWith sortBySuitRank (hiderHand.eraseIdx randIdx'),
                hidden := some hc' } : Hand) := by
      rw [← ha']
      show (((dealToPlayers (shuffle (buildDecksNoTwos deckCount) rand)
          players leaderSeat (cardsPerPlayer players deckCount)).set hiderSeat
          (hiderHand.eraseIdx randIdx')).mapIdx
            (fun s arr =>
              ({ visible := sortWith sortBySuitRank arr,
                 hidden := if s = hiderSeat then some hc' else none } : Hand)))[hiderSeat]? = _
      rw [List.getElem?_mapIdx, hset', Option.map_some']
      simp
    rw [Option.some.injEq] at hv hv'
    subst hv
    subst hv'
    show (↑(sortWith sortBySuitRank (hiderHand.eraseIdx randIdx)) : Multiset Card) +
        ((some hc).elim 0 fun c => {c}) =
      (↑(sortWith sortBySuitRank (hiderHand.eraseIdx randIdx')) : Multiset Card) +
        ((some hc').elim 0 fun c => {c})
    rw [Multiset.coe_eq_coe.mpr (sortWith_perm sortBySuitRank (hiderHand.eraseIdx randIdx)),
      Multiset.coe_eq_coe.mpr (sortWith_perm sortBySuitRank (hiderHand.eraseIdx randIdx'))]
    show ((hiderHand.eraseIdx randIdx : List Card) : Multiset Card) + {hc} =
      ((hiderHand.eraseIdx randIdx' : List Card) : Multiset Card) + {hc'}
    rw [coe_eraseIdx_add hiderHand randIdx hc h2,
      coe_eraseIdx_add hiderHand randIdx' hc' h2']

/-- Witness for the amended C3 at 4 players, one deck, seed stream
`fun _ => 0`, draws 0 and 1. -/
theorem planDeal_seed_reproducible_witness :
    ((0 : Nat) = 1 →
      planDeal 4 1 0 1 (fun _ => 0) 0 = planDeal 4 1 0 1 (fun _ => 0) 1) ∧
    ∃ plan plan',
      planDeal 4 1 0 1 (fun _ => 0) 0 = some plan ∧
      planDeal 4 1 0 1 (fun _ => 0) 1 = some plan' ∧
      (∀ s, s ≠ 0 → plan.hands[s]? = plan'.hands[s]?) ∧
      (∀ h h', plan.hands[0]? = some h → plan'.hands[0]? = some h' →
        (h.visible : Multiset Card) + (h.hidden.elim 0 fun c => {c}) =
          (h'.visible : Multiset Card) + (h'.hidden.elim 0 fun c => {c})) :=
  planDeal_seed_reproducible 4 1 0 1 (fun _ => 0) 0 1 (by decide) (by decide)
    (by decide) (by decide) (by decide) (by decide)

/-! ### The display sort order of `sortBySuitRank` -/

theorem SUIT_ORDER_inj : ∀ s t : Suit, SUIT_ORDER s = SUIT_ORDER t → s = t := by
  intro s t h
  cases s <;> cases t <;> first
  | rfl
  | simp [SUIT_ORDER] at h

theorem sortBySuitRank_iff {a b : Card} :
    sortBySuitRank a b = true ↔
      (SUIT_ORDER (cardSuit a) < SUIT_ORDER (cardSuit b) ∨
       (cardSuit a = cardSuit b ∧
        RANKS.indexOf (cardRank a) ≤ RANKS.indexOf (cardRank b))) := by
  unfold sortBySuitRank
  by_cases hs : cardSuit a = cardSuit b
  · simp [hs]
  · simp [hs]

theorem sortBySuitRank_total (a b : Card) :
    sortBySuitRank a b = true ∨ sortBySuitRank b a = true := by
  rw [sortBySuitRank_iff, sortBySuitRank_iff]
  by_cases hs : cardSuit a = cardSuit b
  · by_cases hi : RANKS.indexOf (cardRank a) ≤ RANKS.indexOf (cardRank b)
    · exact Or.inl (Or.inr ⟨hs, hi⟩)
    · exact Or.inr (Or.inr ⟨hs.symm, by omega⟩)
  · have hso : SUIT_ORDER (cardSuit a) ≠ SUIT_ORDER (cardSuit b) :=
      fun he => hs (SUIT_ORDER_inj _ _ he)
    by_cases hlt : SUIT_ORDER (cardSuit a) < SUIT_ORDER (cardSuit b)
    · exact Or.inl (Or.inl hlt)
    · exact Or.inr (Or.inl (by omega))

theorem sortBySuitRank_trans {a b c : Card} (hab : sortBySuitRank a b = true)
    (hbc : sortBySuitRank b c = true) : sortBySuitRank a c = true := by
  rw [sortBySuitRank_iff] at hab hbc ⊢
  rcases hab with hab | ⟨hs1, hi1⟩
  · rcases hbc with hbc | ⟨hs2, hi2⟩
    · exact Or.inl (lt_trans hab hbc)
    · exact Or.inl (by rw [← hs2]; exact hab)
  · rcases hbc with hbc | ⟨hs2, hi2⟩
    · exact Or.inl (by rw [hs1]; exact hbc)
    · exact Or.inr ⟨hs1.trans hs2, le_trans hi1 hi2⟩

/-- Claim C9 (amended): in every DealPlan produced by `planDeal`, each
seat's visible hand is sorted suit-major with Spades < Hearts < Diamonds <
Clubs, and within a suit by position in `RANKS` — i.e. Ace first,
*descending* rank strength.  (The claim as stated demanded "rank ascending
in strength, weakest first, Ace last"; the code sorts by `RANKS.indexOf`,
which puts the Ace first — see the counterexample.) -/
theorem planDeal_hands_sorted (players deckCount hiderSeat leaderSeat : Nat)
    (rand : Nat → Nat) (randIdx : Nat) (plan : DealPlan)
    (hplan : planDeal players deckCount hiderSeat leaderSeat rand randIdx =
      some plan) :
    ∀ h ∈ plan.hands, h.visible.Pairwise (fun a b =>
      SUIT_ORDER (cardSuit a) < SUIT_ORDER (cardSuit b) ∨
      (cardSuit a = cardSuit b ∧
        RANKS.indexOf (cardRank a) ≤ RANKS.indexOf (cardRank b))) := by
  unfold planDeal at hplan
  rw [Option.bind_eq_some] at hplan
  obtain ⟨hiderHand, h1, hmap⟩ := hplan
  rw [Option.map_eq_some'] at hmap
  obtain ⟨hc, h2, hplaneq⟩ := hmap
  subst hplaneq
  intro h hmem
  simp only [List.mem_mapIdx] at hmem
  obtain ⟨i, hi, heq⟩ := hmem
  subst heq
  refine List.Pairwise.imp ?_ (pairwise_sortWith sortBySuitRank _ ?_ ?_)
  · intro a b hab
    exact (sortBySuitRank_iff).mp hab
  · intro a _ b _
    exact sortBySuitRank_total a b
  · intro a _ b _ c _ h1 h2
    exact sortBySuitRank_trans h1 h2

set_option maxRecDepth 10000 in
/-- Counterexample to C9 as stated: in the concrete plan below the hider's
hand begins A♠, 6♠, … — within Spades the Ace (strength 12) precedes the 6
(strength 4), so the hand is not sorted "rank ascending in strength,
weakest first, Ace last". -/
theorem planDeal_display_order_descending :
    ¬ ∀ plan, planDeal 4 1 0 1 (fun _ => 0) 0 = some plan →
        ∀ h ∈ plan.hands, h.visible.Pairwise (fun a b =>
          SUIT_ORDER (cardSuit a) < SUIT_ORDER (cardSuit b) ∨
          (cardSuit a = cardSuit b ∧
            RANK_POWER (cardRank a) ≤ RANK_POWER (cardRank b))) := by
  intro hall
  have h := hall ((planDeal 4 1 0 1 (fun _ => 0) 0).getD
      { deckCount := 0, players := 0, hiderSeat := 0, leaderSeat := 0,
        trumpSuit := Suit.S, hands := [] }) (by decide)
  exact absurd h (by decide)

set_option maxRecDepth 10000 in
/-- Witness for the amended C9: the first hand of the concrete plan dealt
with the constant seed stream is sorted in the code's display order. -/
theorem planDeal_hands_sorted_witness :
    (((planDeal 4 1 0 1 (fun _ => 0) 0).getD
        { deckCount := 0, players := 0, hiderSeat := 0, leaderSeat := 0,
          trumpSuit := Suit.S, hands := [] }).hands.headD
        { visible := [], hidden := none }).visible.Pairwise (fun a b =>
      SUIT_ORDER (cardSuit a) < SUIT_ORDER (cardSuit b) ∨
      (cardSuit a = cardSuit b ∧
        RANKS.indexOf (cardRank a) ≤ RANKS.indexOf (cardRank b))) :=
  planDeal_hands_sorted 4 1 0 1 (fun _ => 0) 0
    ((planDeal 4 1 0 1 (fun _ => 0) 0).getD
      { deckCount := 0, players := 0, hiderSeat := 0, leaderSeat := 0,
        trumpSuit := Suit.S, hands := [] })
    (by decide)
    (((planDeal 4 1 0 1 (fun _ => 0) 0).getD
      { deckCount := 0, players := 0, hiderSeat := 0, leaderSeat := 0,
        trumpSuit := Suit.S, hands := [] }).hands.headD
      { visible := [], hidden := none })
    (by decide)

/-! ### Reveal and play claims -/

/-- Counterexample to C6 as stated: `canRevealTrump` never checks trump
ownership (it is not even told the trump suit, and its `hidden` parameter is
ignored).  With visible hand [3♥], no hidden card, led suit Spades and
trump — say — Diamonds, the seat owns no trump at all, visible or hidden,
yet `canRevealTrump` returns true. -/
theorem canRevealTrump_no_trump_needed :
    ¬ ∀ (handVisible : List Card) (hidden : Option Card) (ledSuit : Option Suit)
        (trumpRevealed : Bool) (t : Suit),
        canRevealTrump handVisible hidden ledSuit trumpRevealed = true →
          ((∃ c ∈ handVisible, cardSuit c = t) ∨
           (∃ hc, hidden = some hc ∧ cardSuit hc = t)) := by
  intro hall
  have h := hall [⟨Rank.N3, Suit.H⟩] none (some Suit.S) false Suit.D (by decide)
  exact absurd h (by decide)

/-- Claim C6 (amended): `canRevealTrump` returns true exactly when trump is
not yet revealed, the led suit is set, and the seat holds no visible card of
the led suit.  It does not itself check trump ownership; ownership is only
enforced downstream by `revealTrumpAndPlay`, which errors with "No trump to
reveal with". -/
theorem canRevealTrump_iff (handVisible : List Card) (hidden : Option Card)
    (ledSuit : Option Suit) (trumpRevealed : Bool) :
    canRevealTrump handVisible hidden ledSuit trumpRevealed = true ↔
      (trumpRevealed = false ∧
       ∃ led, ledSuit = some led ∧ ∀ c ∈ handVisible, cardSuit c ≠ led) := by
  cases trumpRevealed with
  | true => simp [canRevealTrump]
  | false =>
    cases ledSuit with
    | none => simp [canRevealTrump]
    | some led =>
      by_cases h : handVisible.any (fun c => cardSuit c == led) = true
      · have hfalse : canRevealTrump handVisible hidden (some led) false = false := by
          simp [canRevealTrump, h]
        rw [hfalse]
        simp only [Bool.false_eq_true, false_iff]
        rintro ⟨-, led', hled', hall⟩
        rw [Option.some.injEq] at hled'
        subst hled'
        rw [List.any_eq_true] at h
        obtain ⟨c, hc, hcl⟩ := h
        exact hall c hc (by simpa using hcl)
      · have htrue : canRevealTrump handVisible hidden (some led) false = true := by
          simp [canRevealTrump, h]
        rw [htrue]
        simp only [true_iff]
        refine ⟨by trivial, led, rfl, ?_⟩
        intro c hc hcl
        exact h (List.any_eq_true.mpr ⟨c, hc, by simpa using hcl⟩)

/-- Claim C4 is contradicted by `resolveTrick` (code bug): its helper
`undefinedIfUnrevealed` is documented "if trump wasn't revealed in the
trick, we treat trump as inactive", but it returns the trump suit
unconditionally — it receives no reveal state at all.  On the trick
A♠ (seat 0), 3♥ (seat 1) with led suit Spades and trump Hearts unrevealed,
`resolveTrick` crowns seat 1 via trump, while the trump-inactive evaluation
(what the claim, the doc comment, and the `playCard` path all prescribe)
crowns seat 0. -/
theorem resolveTrick_trump_always_active :
    resolveTrick [⟨0, ⟨Rank.A, Suit.S⟩, 0⟩, ⟨1, ⟨Rank.N3, Suit.H⟩, 1⟩]
        Suit.S Suit.H 2 = some (1, 0) ∧
    (evaluateTrickWinner [⟨0, ⟨Rank.A, Suit.S⟩, 0⟩, ⟨1, ⟨Rank.N3, Suit.H⟩, 1⟩]
        Suit.S none).map Play.seat = some 0 := by decide

/-- Claim C5 is contradicted by `playCard` (code bug): the transaction never
checks the must-follow-suit rule — `legalPlays` is consulted only by the UI
to dim cards, not by the submission path.  Seat 0 (uid 10) holds 3♠ while
Spades are led (`legalPlays` says 3♠ is the only legal card), yet its play
of 5♥ commits: the transaction succeeds, the card leaves the hand and the
trick resolves.  (Playing a card not in the hand and playing out of turn
are, by contrast, rejected.) -/
theorem playCard_accepts_follow_suit_violation :
    (legalPlays [⟨Rank.N3, Suit.S⟩, ⟨Rank.N5, Suit.H⟩] (some Suit.S) =
      [⟨Rank.N3, Suit.S⟩]) ∧
    playCard
      { seats := [10, 11], teamMap := [0, 1], hiderSeat := 0,
        trumpSuit := some Suit.H, trumpRevealed := false,
        trumpRevealedBySeat := none, currentTurnSeat := 0,
        ledSuit := some Suit.S, plays := [⟨1, ⟨Rank.K, Suit.S⟩, 0⟩],
        trickIndex := 0, tensByTeam := [] }
      { visible := [⟨Rank.N3, Suit.S⟩, ⟨Rank.N5, Suit.H⟩], hidden := none }
      10 ⟨Rank.N5, Suit.H⟩ =
      Except.ok
        ({ seats := [10, 11], teamMap := [0, 1], hiderSeat := 0,
           trumpSuit := some Suit.H, trumpRevealed := false,
           trumpRevealedBySeat := none, currentTurnSeat := 1,
           ledSuit := none, plays := [], trickIndex := 1,
           tensByTeam := [(1, 0)] },
         { visible := [⟨Rank.N3, Suit.S⟩], hidden := none }) := by decide

/-- Claim C7 is contradicted by `revealTrumpAndPlay` (code bug): the
transaction writes only the acting player's own hand document, so when the
revealing seat is not the hider, the hider's hidden card is never unlocked.
Here the hider (seat 0, uid 10) holds hidden A♥ with trump Hearts; seat 1
(uid 11), void in the led Spades and holding the trump K♥, reveals: the
reveal succeeds and trump flips to revealed, yet the hider's hidden slot
still holds A♥ — it never becomes visible, and since nothing else empties
it, `handFinished` can never become true for this hand. -/
theorem revealTrump_nonhider_keeps_hidden :
    revealOnTable
      { seats := [10, 11], teamMap := [0, 1], hiderSeat := 0,
        trumpSuit := some Suit.H, trumpRevealed := false,
        trumpRevealedBySeat := none, currentTurnSeat := 1,
        ledSuit := some Suit.S, plays := [⟨0, ⟨Rank.N9, Suit.S⟩, 0⟩],
        trickIndex := 0, tensByTeam := [] }
      [{ visible := [⟨Rank.K, Suit.D⟩], hidden := some ⟨Rank.A, Suit.H⟩ },
       { visible := [⟨Rank.K, Suit.H⟩], hidden := none }]
      11 false =
      Except.ok
        ({ seats := [10, 11], teamMap := [0, 1], hiderSeat := 0,
           trumpSuit := some Suit.H, trumpRevealed := true,
           trumpRevealedBySeat := some 1, currentTurnSeat := 1,
           ledSuit := none, plays := [], trickIndex := 1,
           tensByTeam := [(1, 0)] },
         [{ visible := [⟨Rank.K, Suit.D⟩], hidden := some ⟨Rank.A, Suit.H⟩ },
          { visible := [], hidden := none }]) := by decide
